import Mathlib

/-!
Shallow embedding of the charity bookkeeping dashboard (`src/app.py`).

Transaction records are rows of the per-user CSV store; the `Amount` cell
is modelled as `Option ℚ`: `some q` for a numeric cell, `none` for a
non-numeric cell (which `pd.to_numeric(..., errors='coerce').fillna(0)`
turns into `0`).
-/

namespace Charity

/-- One transaction record: the fourteen expected CSV columns of
`load_data` in `src/app.py`.  `Type` is a Lean keyword, hence `Type'`. -/
structure Record where
  ID : String
  Date : String
  Year : Int
  Month : Int
  Type' : String
  Group : String
  Name_Details : String
  Address : String
  Reason : String
  Responsible : String
  Category : String
  SubCategory : String
  Medical : String
  Amount : Option ℚ
deriving DecidableEq, Repr

/-- Numeric value of a record's `Amount` cell after
`pd.to_numeric(..., errors='coerce').fillna(0)`: non-numeric becomes `0`. -/
def amt (r : Record) : ℚ := r.Amount.getD 0

/-- The in-place coercion `df['Amount'] = pd.to_numeric(df['Amount'],
errors='coerce').fillna(0)` performed by `get_fund_balance` (line 135). -/
def coerceR (r : Record) : Record := { r with Amount := some (r.Amount.getD 0) }

/-- Coerce the `Amount` column of a whole record set. -/
def coerceAmounts (df : List Record) : List Record := df.map coerceR

/-- `get_fund_balance(df, fund_category, group_filter)` from `src/app.py`
lines 133-141.  The function mutates the caller's dataframe (it assigns the
coerced `Amount` column back into `df`), so the embedding returns the
record set as left behind together with the computed balance. -/
def get_fund_balance (df : List Record) (fund_category : String)
    (group_filter : String) : List Record × ℚ :=
  if df = [] then (df, 0)
  else
    let df' := coerceAmounts df
    let temp_df := if group_filter ≠ "All" then df'.filter (fun r => r.Group == group_filter) else df'
    let income := ((temp_df.filter (fun r => r.Type' == "Incoming" && r.Category == fund_category)).map amt).sum
    let expense := ((temp_df.filter (fun r => r.Type' == "Outgoing" && r.Category == fund_category)).map amt).sum
    (df', income - expense)

/-- The fund-balance formula as the spec words it (§3): sum of amounts of
records with `type = Incoming` and the given category (restricted to the
group when the filter is not `"All"`) minus the same sum for `Outgoing`. -/
def specFundBalance (df : List Record) (fund_category : String)
    (group_filter : String) : ℚ :=
  ((df.filter (fun r =>
      (group_filter == "All" || r.Group == group_filter) &&
      r.Type' == "Incoming" && r.Category == fund_category)).map amt).sum -
  ((df.filter (fun r =>
      (group_filter == "All" || r.Group == group_filter) &&
      r.Type' == "Outgoing" && r.Category == fund_category)).map amt).sum

theorem amt_coerceR (r : Record) : amt (coerceR r) = amt r := by
  simp [amt, coerceR]

theorem sum_amt_filter_coerce (p : Record → Bool)
    (hp : ∀ r, p (coerceR r) = p r) (df : List Record) :
    (((coerceAmounts df).filter p).map amt).sum = ((df.filter p).map amt).sum := by
  induction df with
  | nil => rfl
  | cons r t ih =>
    simp only [coerceAmounts, List.map_cons, List.filter_cons] at *
    rw [hp r]
    cases hpr : p r with
    | false => simpa using ih
    | true => simp only [if_true, List.map_cons, List.sum_cons, amt_coerceR, ih]

theorem coerceR_fields (r : Record) :
    (coerceR r).Group = r.Group ∧ (coerceR r).Type' = r.Type' ∧
    (coerceR r).Category = r.Category := by
  simp [coerceR]

theorem get_fund_balance_eq_spec (df : List Record) (fund_category group_filter : String) :
    (get_fund_balance df fund_category group_filter).2 =
      specFundBalance df fund_category group_filter := by
  by_cases hdf : df = []
  · subst hdf; simp [get_fund_balance, specFundBalance]
  · unfold get_fund_balance specFundBalance
    rw [if_neg hdf]
    by_cases hg : group_filter = "All"
    · subst hg
      simp only [ne_eq, not_true_eq_false, if_false, reduceIte]
      rw [sum_amt_filter_coerce _ (fun r => by simp [coerceR]),
        sum_amt_filter_coerce _ (fun r => by simp [coerceR])]
      simp
    · simp only [ne_eq, hg, not_false_eq_true, if_true, List.filter_filter]
      rw [sum_amt_filter_coerce _ (fun r => by simp [coerceR]),
        sum_amt_filter_coerce _ (fun r => by simp [coerceR])]
      have hgb : (group_filter == "All") = false := by
        simpa using hg
      have key : ∀ ty : String,
          df.filter (fun a => a.Type' == ty && a.Category == fund_category && a.Group == group_filter) =
          df.filter (fun r => (group_filter == "All" || r.Group == group_filter) &&
            r.Type' == ty && r.Category == fund_category) := by
        intro ty
        apply List.filter_congr
        intro r _
        simp only [hgb, Bool.false_or]
        cases r.Type' == ty <;> cases r.Category == fund_category <;>
          cases r.Group == group_filter <;> rfl
      rw [key "Incoming", key "Outgoing"]

/-- A record whose `Amount` cell is not numeric (a blank CSV cell). -/
def recBlankAmt : Record :=
  ⟨"b1", "2024-03-01", 2024, 3, "Incoming", "Brother", "Ali", "", "", "", "Sadaka", "", "", none⟩

/-- An incoming Zakat donation of 100 by a Brother. -/
def recInc100 : Record :=
  ⟨"a1", "2024-01-05", 2024, 1, "Incoming", "Brother", "Ali", "", "", "", "Zakat", "", "", some 100⟩

/-- An outgoing Zakat disbursement of 40 to a Brother beneficiary. -/
def recOut40 : Record :=
  ⟨"a2", "2024-02-10", 2024, 2, "Outgoing", "Brother", "Ben", "", "", "", "Zakat", "", "", some 40⟩

/-- C1: `get_fund_balance` returns, for every record set, category and
group filter, the spec's fund-balance formula — incoming sum minus
outgoing sum over that category, restricted to the group when the filter
is not `"All"`; in particular incoming 100 and outgoing 40 give 60, and a
group filter matching no records gives 0, not an error. -/
theorem fundBalance_matches_spec :
    (∀ (df : List Record) (fund_category group_filter : String),
      (get_fund_balance df fund_category group_filter).2 =
        specFundBalance df fund_category group_filter) ∧
    (get_fund_balance [recInc100, recOut40] "Zakat" "All").2 = 60 ∧
    (get_fund_balance [recInc100, recOut40] "Zakat" "Sister").2 = 0 := by
  refine ⟨get_fund_balance_eq_spec, ?_, ?_⟩
  all_goals simp [get_fund_balance, coerceAmounts, coerceR, amt, recInc100, recOut40]
  all_goals norm_num

theorem coerceR_eq_self {r : Record} (h : r.Amount.isSome) : coerceR r = r := by
  cases r with
  | mk i d y m t g n ad re rp c s me am =>
    obtain ⟨q, hq⟩ := Option.isSome_iff_exists.mp h
    simp only at hq
    subst hq
    rfl

theorem coerceAmounts_eq_self {df : List Record} (h : ∀ r ∈ df, r.Amount.isSome) :
    coerceAmounts df = df := by
  unfold coerceAmounts
  conv_rhs => rw [← List.map_id df]
  exact List.map_congr_left fun r hr => coerceR_eq_self (h r hr)

/-- C5 counterexample: `get_fund_balance` does not leave the input record
set unchanged — on a record whose `Amount` cell is non-numeric it
overwrites that cell with `0` in place. -/
theorem get_fund_balance_mutates :
    (get_fund_balance [recBlankAmt] "Sadaka" "All").1 ≠ [recBlankAmt] := by
  decide

/-- C5 (amended): `get_fund_balance` returns the input record set
unchanged whenever every record's `Amount` cell is numeric — the only
mutation it performs is the in-place numeric coercion of `Amount`. -/
theorem get_fund_balance_pure_of_numeric (df : List Record)
    (fund_category group_filter : String) (h : ∀ r ∈ df, r.Amount.isSome) :
    (get_fund_balance df fund_category group_filter).1 = df := by
  unfold get_fund_balance
  by_cases hdf : df = []
  · simp [hdf]
  · rw [if_neg hdf]
    exact coerceAmounts_eq_self h

/-- Witness for `get_fund_balance_pure_of_numeric` at a concrete store. -/
theorem get_fund_balance_pure_of_numeric_witness :
    (get_fund_balance [recInc100, recOut40] "Zakat" "All").1 = [recInc100, recOut40] :=
  get_fund_balance_pure_of_numeric [recInc100, recOut40] "Zakat" "All" (by decide)

/-- Errors the transaction form surfaces instead of persisting (lines
534-548 of `src/app.py`). -/
inductive TxnError where
  | insufficientFunds (category : String)
  | nameAmountRequired
deriving DecidableEq, Repr

/-- The submit handler of the `txn_form` form (`src/app.py` lines
533-548).  `current_balance` is `get_fund_balance(df, sel_category)` with
the default `"All"` group filter (line 494), computed only for outgoing
entries; the new row is appended to the store and written through only
when no error fires. -/
def txn_form_submit (df : List Record) (t_type : String) (amount : ℚ)
    (member_name : String) (rec : Record) : List Record × Option TxnError :=
  if t_type = "Outgoing" ∧ (get_fund_balance df rec.Category "All").2 < amount then
    (df, some (TxnError.insufficientFunds rec.Category))
  else if 0 < amount ∧ member_name ≠ "" then
    (df ++ [rec], none)
  else
    (df, some TxnError.nameAmountRequired)

/-- An outgoing Zakat disbursement of 10, used against an empty store. -/
def recOutZakat10 : Record :=
  ⟨"c1", "2024-04-01", 2024, 4, "Outgoing", "Brother", "X", "", "", "", "Zakat", "", "", some 10⟩

/-- An outgoing Sadaka disbursement of 5, used against an empty store. -/
def recOutSadaka5 : Record :=
  ⟨"c2", "2024-04-02", 2024, 4, "Outgoing", "Sister", "Y", "", "", "", "Sadaka", "", "", some 5⟩

/-- C3 counterexample: an outgoing transaction with positive amount and
non-empty name is not persisted when its amount exceeds the category's
current fund balance — the handler errors out and the store is unchanged,
so the write-time balance check is more than a UI warning. -/
theorem txn_outgoing_not_persisted_beyond_balance :
    (0 : ℚ) < 10 ∧ "X" ≠ "" ∧ recOutZakat10.Type' = "Outgoing" ∧
    (txn_form_submit [] "Outgoing" 10 "X" recOutZakat10).1 = [] ∧
    (txn_form_submit [] "Outgoing" 10 "X" recOutZakat10).2 =
      some (TxnError.insufficientFunds "Zakat") := by
  decide

/-- C3 (amended): saving an outgoing transaction with positive amount and
non-empty name persists the record exactly when the amount does not exceed
the category's current fund balance; otherwise an insufficient-funds error
is surfaced and the store is left unchanged. -/
theorem txn_outgoing_balance_gate (df : List Record) (rec : Record)
    (amount : ℚ) (name : String) (hamt : 0 < amount) (hname : name ≠ "") :
    txn_form_submit df "Outgoing" amount name rec =
      if (get_fund_balance df rec.Category "All").2 < amount
      then (df, some (TxnError.insufficientFunds rec.Category))
      else (df ++ [rec], none) := by
  unfold txn_form_submit
  by_cases hb : (get_fund_balance df rec.Category "All").2 < amount
  · simp [hb]
  · simp [hb, hamt, hname]

/-- Witness for `txn_outgoing_balance_gate`: with balance 100 an outgoing
disbursement of 40 is persisted. -/
theorem txn_outgoing_balance_gate_witness :
    txn_form_submit [recInc100] "Outgoing" 40 "Ben" recOut40 =
      ([recInc100, recOut40], none) := by
  rw [txn_outgoing_balance_gate [recInc100] recOut40 40 "Ben" (by norm_num) (by decide)]
  have hbal : (get_fund_balance [recInc100] recOut40.Category "All").2 = 100 := by
    simp [get_fund_balance, recInc100, recOut40, coerceAmounts, coerceR, amt]
  rw [hbal, if_neg (by norm_num : ¬(100 : ℚ) < 40)]
  rfl

/-- C6 counterexample: an outgoing transaction with amount 5 > 0 and
non-empty name "Y" is nevertheless not persisted (empty store, so the
Sadaka balance 0 is exceeded), refuting persistence being equivalent to
`amount > 0 ∧ name ≠ ""`. -/
theorem txn_validation_iff_fails :
    (0 : ℚ) < 5 ∧ "Y" ≠ "" ∧
    (txn_form_submit [] "Outgoing" 5 "Y" recOutSadaka5).1 = [] ∧
    (txn_form_submit [] "Outgoing" 5 "Y" recOutSadaka5).2 ≠ none := by
  decide

/-- C6 (amended): the new row is persisted (appended, no error) exactly
when `amount > 0`, the name is non-empty, and — for outgoing entries —
the amount does not exceed the category's current fund balance; in every
failing case an error is surfaced and the store is unchanged. -/
theorem txn_persist_iff (df : List Record) (rec : Record) (amount : ℚ)
    (name t_type : String) :
    ((txn_form_submit df t_type amount name rec).2 = none ↔
      (0 < amount ∧ name ≠ "" ∧
        (t_type = "Outgoing" → amount ≤ (get_fund_balance df rec.Category "All").2))) ∧
    ((txn_form_submit df t_type amount name rec).2 = none →
      (txn_form_submit df t_type amount name rec).1 = df ++ [rec]) ∧
    ((txn_form_submit df t_type amount name rec).2 ≠ none →
      (txn_form_submit df t_type amount name rec).1 = df) := by
  by_cases hout : t_type = "Outgoing" ∧ (get_fund_balance df rec.Category "All").2 < amount
  · have he : txn_form_submit df t_type amount name rec =
        (df, some (TxnError.insufficientFunds rec.Category)) := by
      unfold txn_form_submit; rw [if_pos hout]
    rw [he]
    refine ⟨⟨fun h => absurd h (by simp), ?_⟩, fun h => absurd h (by simp), fun _ => rfl⟩
    rintro ⟨_, _, hle⟩
    exact absurd (hle hout.1) (not_le.mpr hout.2)
  · by_cases hv : 0 < amount ∧ name ≠ ""
    · have he : txn_form_submit df t_type amount name rec = (df ++ [rec], none) := by
        unfold txn_form_submit; rw [if_neg hout, if_pos hv]
      rw [he]
      refine ⟨⟨fun _ => ⟨hv.1, hv.2, fun ht => ?_⟩, fun _ => rfl⟩,
        fun _ => rfl, fun h => absurd rfl h⟩
      by_contra hle
      exact hout ⟨ht, not_le.mp hle⟩
    · have he : txn_form_submit df t_type amount name rec =
        (df, some TxnError.nameAmountRequired) := by
        unfold txn_form_submit; rw [if_neg hout, if_neg hv]
      rw [he]
      refine ⟨⟨fun h => absurd h (by simp), ?_⟩, fun h => absurd h (by simp), fun _ => rfl⟩
      rintro ⟨h1, h2, _⟩
      exact absurd ⟨h1, h2⟩ hv

/-- `MONTH_NAMES` from `src/app.py` lines 37-38. -/
def MONTH_NAMES : List String :=
  ["January", "February", "March", "April", "May", "June",
   "July", "August", "September", "October", "November", "December"]

/-- The member-contribution month rows of table 1 of `generate_pdf`
(`src/app.py` lines 220-228): for each month 1..12 the month name and the
sum of the member's amounts in that month (0 when none). -/
def t1MonthRows (df_member_year : List Record) : List (String × ℚ) :=
  (List.range 12).map (fun i =>
    (MONTH_NAMES.getD i "",
     ((df_member_year.filter (fun r => r.Month == (i : Int) + 1)).map amt).sum))

/-- One row of the overall monthly summary table. -/
structure SummaryRow where
  month : String
  income : ℚ
  donation : ℚ
  balance : ℚ
deriving DecidableEq, Repr

/-- Sum of amounts of records in month `m` with the given type, as the
`groupby(['Month','Type']).sum().unstack(fill_value=0)` pivot plus the
`loc[...] if m_num in index else 0` lookup of `render_summary` computes it. -/
def sumTyped (l : List Record) (m : Int) (t : String) : ℚ :=
  ((l.filter (fun r => r.Month == m && r.Type' == t)).map amt).sum

/-- `render_summary(dframe)` from `src/app.py` lines 747-762: on an empty
frame it returns immediately and renders no table (`none`); otherwise it
renders twelve month rows with income, donation and balance. -/
def render_summary (dframe : List Record) : Option (List SummaryRow) :=
  if dframe = [] then none
  else some ((List.range 12).map (fun i =>
    { month := MONTH_NAMES.getD i "",
      income := sumTyped dframe ((i : Int) + 1) "Incoming",
      donation := sumTyped dframe ((i : Int) + 1) "Outgoing",
      balance := sumTyped dframe ((i : Int) + 1) "Incoming" -
        sumTyped dframe ((i : Int) + 1) "Outgoing" }))

/-- C2 counterexample: for the empty record set, `render_summary` renders
no monthly-totals table at all (it returns before building one), so its
output does not contain twelve month rows. -/
theorem render_summary_empty_no_rows :
    ¬ ∃ rows, render_summary ([] : List Record) = some rows ∧ rows.length = 12 := by
  rintro ⟨rows, h, -⟩
  simp [render_summary] at h

/-- C2 (amended): the member monthly table of `generate_pdf` always has
exactly twelve month rows, one per month with months lacking records
contributing 0; `render_summary` produces twelve such rows for every
non-empty record set, but renders nothing for the empty one. -/
theorem monthly_tables_twelve_rows :
    (∀ df : List Record, (t1MonthRows df).length = 12) ∧
    (∀ (df : List Record) (m : ℕ), 1 ≤ m → m ≤ 12 →
      (MONTH_NAMES.getD (m - 1) "",
        ((df.filter (fun r => r.Month == (m : Int))).map amt).sum) ∈ t1MonthRows df) ∧
    (∀ df : List Record, df ≠ [] →
      ∃ rows, render_summary df = some rows ∧ rows.length = 12 ∧
        ∀ row ∈ rows, row.balance = row.income - row.donation) := by
  refine ⟨fun df => by simp [t1MonthRows], ?_, ?_⟩
  · intro df m h1 h2
    apply List.mem_map.mpr
    refine ⟨m - 1, by simp [List.mem_range]; omega, ?_⟩
    have hm : ((m - 1 : ℕ) : Int) + 1 = (m : Int) := by omega
    rw [hm]
  · intro df hdf
    refine ⟨_, by unfold render_summary; rw [if_neg hdf], by simp, ?_⟩
    intro row hrow
    simp only [List.mem_map] at hrow
    obtain ⟨i, _, rfl⟩ := hrow
    rfl

/-- Witness for `monthly_tables_twelve_rows`: a lone January record of 50
still yields twelve rows, with the February row present and equal to 0. -/
theorem monthly_tables_twelve_rows_witness :
    (t1MonthRows [recInc100]).length = 12 ∧
    ("February", (0 : ℚ)) ∈ t1MonthRows [recInc100] ∧
    (∃ rows, render_summary [recInc100] = some rows ∧ rows.length = 12 ∧
      ∀ row ∈ rows, row.balance = row.income - row.donation) := by
  obtain ⟨h1, h2, h3⟩ := monthly_tables_twelve_rows
  refine ⟨h1 [recInc100], ?_, h3 [recInc100] (by decide)⟩
  have h := h2 [recInc100] 2 (by norm_num) (by norm_num)
  simpa [MONTH_NAMES, recInc100, amt] using h

/-- Witness for `txn_persist_iff`: a valid incoming donation is appended
with no error. -/
theorem txn_persist_iff_witness :
    (txn_form_submit [] "Incoming" 100 "Ali" recInc100).2 = none ∧
    (txn_form_submit [] "Incoming" 100 "Ali" recInc100).1 = [recInc100] := by
  have h := txn_persist_iff [] recInc100 100 "Ali" "Incoming"
  have h2 : (txn_form_submit [] "Incoming" 100 "Ali" recInc100).2 = none :=
    h.1.mpr ⟨by decide, by decide, fun ht => by simp at ht⟩
  exact ⟨h2, h.2.1 h2⟩

/-- `expected_cols` of `load_data` (`src/app.py` lines 119-120). -/
def expected_cols : List String :=
  ["ID", "Date", "Year", "Month", "Type", "Group", "Name_Details",
   "Address", "Reason", "Responsible", "Category", "SubCategory", "Medical", "Amount"]

/-- A parsed CSV table: its column names, and its rows as lists of
(column, cell) pairs. -/
structure Table where
  cols : List String
  rows : List (List (String × String))
deriving DecidableEq, Repr

/-- State of the per-user durable CSV file: missing, unparseable, or a
parsed table. -/
inductive FileContent where
  | absent
  | malformed
  | parsed (t : Table)
deriving DecidableEq, Repr

/-- `df[col] = ""`: add a column filled with empty strings (no-op when
the column already exists — `load_data` guards with `col not in df.columns`). -/
def addCol (t : Table) (c : String) : Table :=
  if c ∈ t.cols then t
  else { cols := t.cols ++ [c], rows := t.rows.map (fun row => row ++ [(c, "")]) }

/-- The `for col in expected_cols: if col not in df.columns: df[col] = ""`
loop of `load_data`. -/
def addMissingCols : List String → Table → Table
  | [], t => t
  | c :: cs, t => addMissingCols cs (addCol t c)

/-- `pd.DataFrame(columns=expected_cols)`: the empty, schema-complete store. -/
def emptyTable : Table := { cols := expected_cols, rows := [] }

/-- `load_data()` from `src/app.py` lines 118-128, as a function from the
durable file's state to (returned in-memory table, durable file state
afterwards).  The function only reads: it never calls `save_data`, so the
file state it leaves behind is the one it found. -/
def load_data : FileContent → Table × FileContent
  | .absent => (emptyTable, .absent)
  | .malformed => (emptyTable, .malformed)
  | .parsed t => (addMissingCols expected_cols t, .parsed t)

theorem mem_cols_addCol {t : Table} {c : String} (c' : String) (h : c ∈ t.cols) :
    c ∈ (addCol t c').cols := by
  unfold addCol
  split
  · exact h
  · simp only [List.mem_append]; exact Or.inl h

theorem mem_cols_addCol_self (t : Table) (c : String) : c ∈ (addCol t c).cols := by
  unfold addCol
  split
  · assumption
  · simp

theorem mem_cols_addMissingCols_of {c : String} :
    ∀ (cs : List String) (t : Table), c ∈ t.cols → c ∈ (addMissingCols cs t).cols
  | [], _, h => h
  | _ :: cs, _, h => mem_cols_addMissingCols_of cs _ (mem_cols_addCol _ h)

theorem mem_cols_addMissingCols {c : String} :
    ∀ (cs : List String) (t : Table), c ∈ cs → c ∈ (addMissingCols cs t).cols := by
  intro cs
  induction cs with
  | nil => intro t h; cases h
  | cons c' cs ih =>
    intro t h
    rcases List.mem_cons.mp h with rfl | h
    · exact mem_cols_addMissingCols_of cs _ (mem_cols_addCol_self t c)
    · exact ih _ h

theorem pair_mem_rows_addCol {t : Table} {c : String}
    (c' : String) (h : ∀ row ∈ t.rows, (c, "") ∈ row) :
    ∀ row ∈ (addCol t c').rows, (c, "") ∈ row := by
  unfold addCol
  split
  · exact h
  · intro row hrow
    simp only [List.mem_map] at hrow
    obtain ⟨row0, hrow0, rfl⟩ := hrow
    exact List.mem_append.mpr (Or.inl (h row0 hrow0))

theorem pair_mem_rows_addCol_self {t : Table} {c : String} (h : c ∉ t.cols) :
    ∀ row ∈ (addCol t c).rows, (c, "") ∈ row := by
  unfold addCol
  rw [if_neg h]
  intro row hrow
  simp only [List.mem_map] at hrow
  obtain ⟨row0, _, rfl⟩ := hrow
  simp

theorem pair_mem_rows_addMissingCols_of {c : String} :
    ∀ (cs : List String) (t : Table), (∀ row ∈ t.rows, (c, "") ∈ row) →
      ∀ row ∈ (addMissingCols cs t).rows, (c, "") ∈ row
  | [], _, h => h
  | _ :: cs, _, h => pair_mem_rows_addMissingCols_of cs _ (pair_mem_rows_addCol _ h)

theorem cols_addCol_subset {t : Table} {c c' : String} (h : c ∈ (addCol t c').cols) :
    c ∈ t.cols ∨ c = c' := by
  unfold addCol at h
  split at h
  · exact Or.inl h
  · simpa using h

theorem pair_mem_rows_addMissingCols {c : String} :
    ∀ (cs : List String) (t : Table), c ∈ cs → c ∉ t.cols →
      ∀ row ∈ (addMissingCols cs t).rows, (c, "") ∈ row := by
  intro cs
  induction cs with
  | nil => intro t h; cases h
  | cons c' cs ih =>
    intro t h hnc
    rcases List.mem_cons.mp h with rfl | h
    · exact pair_mem_rows_addMissingCols_of cs _ (pair_mem_rows_addCol_self hnc)
    · by_cases hcc : c = c'
      · subst hcc
        exact pair_mem_rows_addMissingCols_of cs _ (pair_mem_rows_addCol_self hnc)
      · apply ih
        · exact h
        · intro hmem
          rcases cols_addCol_subset hmem with hmem | rfl
          · exact hnc hmem
          · exact hcc rfl

/-- A legacy durable file carrying only the first two expected columns. -/
def legacyTable : Table :=
  { cols := ["ID", "Date"], rows := [[("ID", "a1"), ("Date", "2024-01-05")]] }

/-- C4 counterexample: loading a durable file that is missing expected
columns does not persist the corrected schema back — the durable file
`load_data` leaves behind is exactly the one it found, still without the
`Medical` column. -/
theorem load_data_no_writeback :
    (load_data (FileContent.parsed legacyTable)).2 = FileContent.parsed legacyTable ∧
    "Medical" ∉ legacyTable.cols ∧ "Medical" ∈ expected_cols := by
  refine ⟨rfl, by decide, by decide⟩

/-- C4 (amended): loading a durable file missing expected columns adds
each missing column with empty-string defaults to the returned in-memory
set, but leaves the durable file untouched (the corrected schema is only
persisted by the next `save_data`); an absent file yields the empty,
schema-complete set. -/
theorem load_data_migration :
    (∀ t : Table,
      (load_data (FileContent.parsed t)).2 = FileContent.parsed t ∧
      (∀ c ∈ expected_cols, c ∈ (load_data (FileContent.parsed t)).1.cols) ∧
      (∀ c ∈ expected_cols, c ∉ t.cols →
        ∀ row ∈ (load_data (FileContent.parsed t)).1.rows, (c, "") ∈ row)) ∧
    load_data FileContent.absent = (emptyTable, FileContent.absent) ∧
    emptyTable.cols = expected_cols := by
  refine ⟨fun t => ⟨rfl, ?_, ?_⟩, rfl, rfl⟩
  · intro c hc
    exact mem_cols_addMissingCols expected_cols t hc
  · intro c hc hnc
    exact pair_mem_rows_addMissingCols expected_cols t hc hnc

/-- Witness for `load_data_migration` on the legacy two-column file: the
file is left as found, the returned set has the `Medical` column, and its
row carries the empty-string default. -/
theorem load_data_migration_witness :
    (load_data (FileContent.parsed legacyTable)).2 = FileContent.parsed legacyTable ∧
    "Medical" ∈ (load_data (FileContent.parsed legacyTable)).1.cols ∧
    ∀ row ∈ (load_data (FileContent.parsed legacyTable)).1.rows, ("Medical", "") ∈ row := by
  obtain ⟨h, -, -⟩ := load_data_migration
  obtain ⟨h1, h2, h3⟩ := h legacyTable
  exact ⟨h1, h2 "Medical" (by decide), h3 "Medical" (by decide) (by decide)⟩

/-- C8: a durable file that exists but fails to parse yields the empty,
schema-complete store — `load_data` returns it instead of raising. -/
theorem load_data_malformed_empty :
    load_data FileContent.malformed = (emptyTable, FileContent.malformed) ∧
    emptyTable.cols = expected_cols ∧ emptyTable.rows = [] :=
  ⟨rfl, rfl, rfl⟩

/-- Profile attributes stored per member in `members.json`
(`src/app.py` line 469). -/
structure MemberAttrs where
  id : String
  group : String
  phone : String
  email : String
  address : String
deriving DecidableEq, Repr

/-- Python `dict[k] = v` on an insertion-ordered mapping: replace the
value in place when the key exists, append otherwise. -/
def dictInsert : List (String × MemberAttrs) → String → MemberAttrs →
    List (String × MemberAttrs)
  | [], k, v => [(k, v)]
  | p :: rest, k, v => if p.1 = k then (k, v) :: rest else p :: dictInsert rest k v

/-- `members_db.get(name)`: first entry with the given key. -/
def memberLookup (db : List (String × MemberAttrs)) (k : String) : Option MemberAttrs :=
  (db.find? (fun p => p.1 == k)).map Prod.snd

/-- The submit handler of the `new_member_form` form (`src/app.py` lines
466-473): require a non-empty name and email, derive the id from the
optional field or a fresh uuid prefix (`freshId`), then assign into the
member dict (silently overwriting an existing entry). -/
def register (db : List (String × MemberAttrs))
    (freshId nm_id nm_name nm_group nm_phone nm_email nm_addr : String) :
    List (String × MemberAttrs) × Option String :=
  if nm_name ≠ "" ∧ nm_email ≠ "" then
    (dictInsert db nm_name
      ⟨if nm_id ≠ "" then nm_id else freshId, nm_group, nm_phone, nm_email, nm_addr⟩,
     none)
  else (db, some "Name and Email required.")

theorem memberLookup_dictInsert (db : List (String × MemberAttrs))
    (k : String) (v : MemberAttrs) : memberLookup (dictInsert db k v) k = some v := by
  induction db with
  | nil => simp [dictInsert, memberLookup]
  | cons p rest ih =>
    by_cases h : p.1 = k
    · simp [dictInsert, h, memberLookup, List.find?]
    · have hb : (p.1 == k) = false := by simpa using h
      simp only [dictInsert, if_neg h, memberLookup, List.find?, hb]
      exact ih

/-- C7: registration with an empty name or email is rejected and leaves
the member directory unchanged; re-registering an existing name with valid
fields silently overwrites, so the second registration's attributes (in
particular its phone number) are the ones retrieved afterwards. -/
theorem register_member_spec :
    (∀ (db : List (String × MemberAttrs))
        (freshId nm_id nm_name nm_group nm_phone nm_email nm_addr : String),
      nm_name = "" ∨ nm_email = "" →
      register db freshId nm_id nm_name nm_group nm_phone nm_email nm_addr =
        (db, some "Name and Email required.")) ∧
    (∀ (db : List (String × MemberAttrs))
        (f1 f2 id1 id2 name g1 g2 p1 p2 e1 e2 a1 a2 : String),
      name ≠ "" → e1 ≠ "" → e2 ≠ "" →
      memberLookup
        (register (register db f1 id1 name g1 p1 e1 a1).1 f2 id2 name g2 p2 e2 a2).1
        name =
        some ⟨if id2 ≠ "" then id2 else f2, g2, p2, e2, a2⟩) := by
  constructor
  · intro db freshId nm_id nm_name nm_group nm_phone nm_email nm_addr h
    unfold register
    rw [if_neg]
    rintro ⟨h1, h2⟩
    rcases h with rfl | rfl
    · exact h1 rfl
    · exact h2 rfl
  · intro db f1 f2 id1 id2 name g1 g2 p1 p2 e1 e2 a1 a2 hn h1 h2
    unfold register
    rw [if_pos ⟨hn, h2⟩, if_pos ⟨hn, h1⟩]
    exact memberLookup_dictInsert _ name _

/-- Witness for `register_member_spec`: empty email is rejected on an
empty directory, and double registration of "Ali" retrieves the second
phone number. -/
theorem register_member_spec_witness :
    register [] "f1" "" "Ali" "Brother" "030" "" "A1" =
      ([], some "Name and Email required.") ∧
    memberLookup
      (register (register [] "f1" "" "Ali" "Brother" "030" "a@b.de" "A1").1
        "f2" "" "Ali" "Brother" "040" "a@b.de" "A2").1 "Ali" =
      some ⟨"f2", "Brother", "040", "a@b.de", "A2"⟩ := by
  constructor
  · exact register_member_spec.1 [] "f1" "" "Ali" "Brother" "030" "" "A1" (Or.inr rfl)
  · have h := register_member_spec.2 [] "f1" "f2" "" "" "Ali" "Brother" "Brother"
      "030" "040" "a@b.de" "a@b.de" "A1" "A2" (by decide) (by decide) (by decide)
    simpa using h

/-- `get_user_db_file(username)` from `src/app.py` lines 45-47: keep only
the alphanumeric characters of the username. -/
def get_user_db_file (username : String) : String :=
  "data_" ++ String.mk (username.toList.filter Char.isAlphanum) ++ ".csv"

/-- C10: stripping non-alphanumeric characters makes two distinct
usernames share one durable transaction file, breaking tenant isolation. -/
theorem user_db_file_collision :
    "john doe" ≠ "johndoe" ∧
    get_user_db_file "john doe" = get_user_db_file "johndoe" ∧
    get_user_db_file "john doe" = "data_johndoe.csv" := by
  refine ⟨by decide, ?_, ?_⟩ <;> rfl

/-! ### Per-member totals (spec §4.3)

`perMemberTotals` has no counterpart in `src/app.py`; the definitions
below are modelled from the spec's words. -/

/-- Names of incoming records, in input order. -/
def incomingNames (l : List Record) : List String :=
  (l.filter (fun r => r.Type' == "Incoming")).map (fun r => r.Name_Details)

/-- Keep the first occurrence of each element, in order of first
appearance. -/
def firstSeen : List String → List String
  | [] => []
  | a :: l => a :: (firstSeen l).filter (fun x => x != a)

/-- Total incoming amount recorded under a member name. -/
def sumName (l : List Record) (n : String) : ℚ :=
  ((l.filter (fun r => r.Type' == "Incoming" && r.Name_Details == n)).map amt).sum

/-- Member names of a record set in first-seen order. -/
def fsNames (l : List Record) : List String := firstSeen (incomingNames l)

/-- Modelled from the spec: the group-by stage of
`perMemberTotals(records)` (§4.3), which is absent from `src/app.py` —
incoming records grouped by name with summed amounts, one entry per name
in first-seen order. -/
def memberTotals (l : List Record) : List (String × ℚ) :=
  (fsNames l).map (fun n => (n, sumName l n))

/-- Descending-by-amount comparison used to sort member totals. -/
abbrev byAmt (p q : String × ℚ) : Prop := q.2 ≤ p.2

instance : DecidableRel byAmt := fun p q => inferInstanceAs (Decidable (q.2 ≤ p.2))

instance : IsTotal (String × ℚ) byAmt := ⟨fun a b => le_total b.2 a.2⟩

instance : IsTrans (String × ℚ) byAmt := ⟨fun _ _ _ h1 h2 => le_trans h2 h1⟩

/-- Modelled from the spec: `perMemberTotals(records)` (§4.3), absent from
`src/app.py` — group incoming records by name, sum amounts, and sort
descending by summed amount with a stable sort primitive. -/
def perMemberTotals (l : List Record) : List (String × ℚ) :=
  List.insertionSort byAmt (memberTotals l)

theorem mem_firstSeen : ∀ (l : List String) (x : String), x ∈ firstSeen l ↔ x ∈ l := by
  intro l
  induction l with
  | nil => intro x; simp [firstSeen]
  | cons a t ih =>
    intro x
    simp only [firstSeen, List.mem_cons, List.mem_filter, bne_iff_ne, ne_eq, ih]
    constructor
    · rintro (rfl | ⟨h, -⟩)
      · exact Or.inl rfl
      · exact Or.inr h
    · rintro (rfl | h)
      · exact Or.inl rfl
      · by_cases hxa : x = a
        · exact Or.inl hxa
        · exact Or.inr ⟨h, hxa⟩

theorem nodup_firstSeen : ∀ l : List String, (firstSeen l).Nodup := by
  intro l
  induction l with
  | nil => simp [firstSeen]
  | cons a t ih =>
    refine List.nodup_cons.mpr ⟨?_, ih.filter _⟩
    intro hmem
    have h2 := (List.mem_filter.mp hmem).2
    simp at h2

theorem nodup_fsNames (l : List Record) : (fsNames l).Nodup := nodup_firstSeen _

theorem pair_sublist_of_mem {α : Type*} {l : List α} {x y : α}
    (hx : x ∈ l) (hy : y ∈ l) (hxy : x ≠ y) :
    List.Sublist [x, y] l ∨ List.Sublist [y, x] l := by
  induction l with
  | nil => cases hx
  | cons a t ih =>
    rcases List.mem_cons.mp hx with rfl | hx'
    · have hy' : y ∈ t := by
        rcases List.mem_cons.mp hy with rfl | h
        · exact absurd rfl hxy
        · exact h
      exact Or.inl ((List.singleton_sublist.mpr hy').cons₂ x)
    · rcases List.mem_cons.mp hy with rfl | hy'
      · exact Or.inr ((List.singleton_sublist.mpr hx').cons₂ y)
      · rcases ih hx' hy' with h | h
        · exact Or.inl (h.cons a)
        · exact Or.inr (h.cons a)

theorem not_pair_sublist_both {α : Type*} {l : List α} (hl : l.Nodup) {x y : α}
    (hxy : x ≠ y) (h1 : List.Sublist [x, y] l) (h2 : List.Sublist [y, x] l) :
    False := by
  induction l with
  | nil => simp at h1
  | cons a t ih =>
    obtain ⟨ha, ht⟩ := List.nodup_cons.mp hl
    cases h1 with
    | cons _ h1' =>
      cases h2 with
      | cons _ h2' => exact ih ht h1' h2'
      | cons₂ _ h2' =>
        exact ha (h1'.subset (List.mem_cons_of_mem _ (List.mem_singleton_self _)))
    | cons₂ _ h1' =>
      cases h2 with
      | cons _ h2' =>
        exact ha (h2'.subset (List.mem_cons_of_mem _ (List.mem_singleton_self _)))
      | cons₂ _ h2' => exact hxy rfl

theorem not_pair_self_sublist {α : Type*} [DecidableEq α] {l : List α}
    (hl : l.Nodup) (x : α) :
    ¬ List.Sublist [x, x] l := by
  intro h
  have h2 : List.count x [x, x] ≤ List.count x l := h.count_le x
  have h1 : List.count x l ≤ 1 := List.nodup_iff_count_le_one.mp hl x
  simp [List.count_cons] at h2
  omega

theorem mem_memberTotals {l : List Record} {p : String × ℚ} :
    p ∈ memberTotals l ↔ p.1 ∈ fsNames l ∧ p.2 = sumName l p.1 := by
  unfold memberTotals
  rw [List.mem_map]
  constructor
  · rintro ⟨n, hn, rfl⟩
    exact ⟨hn, rfl⟩
  · rintro ⟨h1, h2⟩
    exact ⟨p.1, h1, by rw [← h2]⟩

theorem map_fst_memberTotals (l : List Record) :
    (memberTotals l).map Prod.fst = fsNames l := by
  unfold memberTotals
  rw [List.map_map]
  have h : (Prod.fst ∘ fun n => (n, sumName l n)) = id := by
    funext n; rfl
  rw [h, List.map_id]

theorem nodup_map_fst_memberTotals (l : List Record) :
    ((memberTotals l).map Prod.fst).Nodup := by
  rw [map_fst_memberTotals]
  exact nodup_fsNames l

theorem sumName_perm {l1 l2 : List Record} (h : l1.Perm l2) (n : String) :
    sumName l1 n = sumName l2 n :=
  ((h.filter _).map amt).sum_eq

theorem fsNames_perm {l1 l2 : List Record} (h : l1.Perm l2) :
    (fsNames l1).Perm (fsNames l2) := by
  apply (List.perm_ext_iff_of_nodup (nodup_fsNames l1) (nodup_fsNames l2)).mpr
  intro x
  unfold fsNames
  rw [mem_firstSeen, mem_firstSeen]
  exact ((h.filter _).map _).mem_iff

theorem memberTotals_perm {l1 l2 : List Record} (h : l1.Perm l2) :
    (memberTotals l1).Perm (memberTotals l2) := by
  unfold memberTotals
  have h2 : (fsNames l2).map (fun n => (n, sumName l2 n)) =
      (fsNames l2).map (fun n => (n, sumName l1 n)) := by
    apply List.map_congr_left
    intro n _
    rw [sumName_perm h]
  rw [h2]
  exact (fsNames_perm h).map _

theorem nodup_map_fst_perMemberTotals (l : List Record) :
    ((perMemberTotals l).map Prod.fst).Nodup := by
  have hp : (perMemberTotals l).Perm (memberTotals l) := List.perm_insertionSort _ _
  exact ((hp.map Prod.fst).nodup_iff).mpr (nodup_map_fst_memberTotals l)

theorem sorted_perMemberTotals (l : List Record) :
    List.Sorted byAmt (perMemberTotals l) :=
  List.sorted_insertionSort byAmt (memberTotals l)

theorem nodup_map_fst_cons_split {x : String × ℚ} {t : List (String × ℚ)}
    (h : ((x :: t).map Prod.fst).Nodup) :
    x.1 ∉ t.map Prod.fst ∧ (t.map Prod.fst).Nodup := by
  rw [List.map_cons] at h
  exact List.nodup_cons.mp h

/-- Two lists of member totals that are permutations of each other, both
sorted descending, with no duplicate names, and that order every tied
pair the same way, are equal. -/
theorem eq_of_sorted_perm_tie : ∀ {o1 o2 : List (String × ℚ)},
    o1.Perm o2 → List.Sorted byAmt o1 → List.Sorted byAmt o2 →
    (o1.map Prod.fst).Nodup →
    (∀ a b : String × ℚ, a.2 = b.2 → a ∈ o1 → b ∈ o1 →
      List.Sublist [a, b] o1 → List.Sublist [a, b] o2) →
    o1 = o2 := by
  intro o1
  induction o1 with
  | nil =>
    intro o2 hp _ _ _ _
    exact hp.nil_eq
  | cons x t1 ih =>
    intro o2 hp hs1 hs2 hn ht
    cases o2 with
    | nil => exact absurd hp.symm.nil_eq (by simp)
    | cons y t2 =>
      by_cases hxy : x = y
      · subst hxy
        have hp' : t1.Perm t2 := hp.cons_inv
        have hsplit := nodup_map_fst_cons_split hn
        congr 1
        apply ih hp' (List.sorted_cons.mp hs1).2 (List.sorted_cons.mp hs2).2 hsplit.2
        intro a b he ha hb hsub
        have h2 := ht a b he (List.mem_cons_of_mem _ ha) (List.mem_cons_of_mem _ hb)
          (hsub.cons x)
        cases h2 with
        | cons _ h => exact h
        | cons₂ _ h =>
          exact absurd (List.mem_map_of_mem _ ha) hsplit.1
      · exfalso
        have hy2 : y ∈ t1 := by
          have hy1 : y ∈ x :: t1 := hp.symm.subset (List.mem_cons_self y t2)
          rcases List.mem_cons.mp hy1 with h | h
          · exact absurd h.symm hxy
          · exact h
        have hx2 : x ∈ t2 := by
          have hx1 : x ∈ y :: t2 := hp.subset (List.mem_cons_self x t1)
          rcases List.mem_cons.mp hx1 with h | h
          · exact absurd h hxy
          · exact h
        have hxy2 : byAmt x y := (List.sorted_cons.mp hs1).1 y hy2
        have hyx2 : byAmt y x := (List.sorted_cons.mp hs2).1 x hx2
        have htie : x.2 = y.2 := le_antisymm hyx2 hxy2
        have hsub : List.Sublist [x, y] (x :: t1) :=
          (List.singleton_sublist.mpr hy2).cons₂ x
        have h2 := ht x y htie (List.mem_cons_self _ _)
          (List.mem_cons_of_mem _ hy2) hsub
        cases h2 with
        | cons₂ _ h => exact hxy rfl
        | cons _ h =>
          have hyt2 : y ∈ t2 :=
            h.subset (List.mem_cons_of_mem _ (List.mem_singleton_self _))
          have hn2 : ((y :: t2).map Prod.fst).Nodup :=
            ((hp.map Prod.fst).nodup_iff).mp hn
          exact (nodup_map_fst_cons_split hn2).1 (List.mem_map_of_mem _ hyt2)

theorem nodup_perMemberTotals (l : List Record) : (perMemberTotals l).Nodup :=
  (nodup_map_fst_perMemberTotals l).of_map

theorem pair_mem_totals_sublist {l : List Record} {a b : String}
    (hfs : List.Sublist [a, b] (fsNames l)) :
    List.Sublist [(a, sumName l a), (b, sumName l b)] (memberTotals l) := by
  have h := hfs.map (fun n => (n, sumName l n))
  simpa [memberTotals] using h

theorem tie_order_preserved {l : List Record} {a b : String}
    (hsum : sumName l a = sumName l b)
    (hfs : List.Sublist [a, b] (fsNames l)) :
    List.Sublist [(a, sumName l a), (b, sumName l b)] (perMemberTotals l) := by
  show List.Sublist _ (List.insertionSort byAmt (memberTotals l))
  refine List.pair_sublist_insertionSort ?_ (pair_mem_totals_sublist hfs)
  show sumName l b ≤ sumName l a
  exact le_of_eq hsum.symm

theorem fs_order_of_output_order {l : List Record} {a b : String × ℚ}
    (ha : a ∈ memberTotals l) (hb : b ∈ memberTotals l) (hab : a ≠ b)
    (htie : a.2 = b.2) (h : List.Sublist [a, b] (perMemberTotals l)) :
    List.Sublist [a.1, b.1] (fsNames l) := by
  obtain ⟨ha1, ha2⟩ := mem_memberTotals.mp ha
  obtain ⟨hb1, hb2⟩ := mem_memberTotals.mp hb
  have hab1 : a.1 ≠ b.1 := fun he => hab (Prod.ext_iff.mpr ⟨he, htie⟩)
  rcases pair_sublist_of_mem ha1 hb1 hab1 with hor | hor
  · exact hor
  · exfalso
    have hba : List.Sublist [b, a] (perMemberTotals l) := by
      have hmap := pair_mem_totals_sublist hor
      have hbeq : (b.1, sumName l b.1) = b := by
        rw [← hb2]
      have haeq : (a.1, sumName l a.1) = a := by
        rw [← ha2]
      rw [hbeq, haeq] at hmap
      show List.Sublist _ (List.insertionSort byAmt (memberTotals l))
      refine List.pair_sublist_insertionSort ?_ hmap
      show a.2 ≤ b.2
      exact le_of_eq htie
    exact not_pair_sublist_both (nodup_perMemberTotals l) hab h hba

/-- C9: `perMemberTotals` (modelled from the spec, absent from the code)
groups incoming records by name in first-seen order, sums amounts, and
sorts descending by summed amount with a stable tie-break: tied members
appear in the output in their first-seen input order, and the output is
invariant under input reorderings that preserve first-seen order among
tied members. -/
theorem perMemberTotals_stable :
    (∀ l : List Record,
      (perMemberTotals l).Perm (memberTotals l) ∧
      List.Sorted byAmt (perMemberTotals l)) ∧
    (∀ (l : List Record) (a b : String), a ≠ b → sumName l a = sumName l b →
      List.Sublist [a, b] (fsNames l) →
      List.Sublist [a, b] ((perMemberTotals l).map Prod.fst)) ∧
    (∀ l1 l2 : List Record, l1.Perm l2 →
      (∀ a ∈ fsNames l1, ∀ b ∈ fsNames l1, sumName l1 a = sumName l1 b →
        (List.Sublist [a, b] (fsNames l1) ↔ List.Sublist [a, b] (fsNames l2))) →
      perMemberTotals l1 = perMemberTotals l2) := by
  refine ⟨fun l => ⟨List.perm_insertionSort _ _, sorted_perMemberTotals l⟩, ?_, ?_⟩
  · intro l a b hab hsum hfs
    have h := (tie_order_preserved hsum hfs).map Prod.fst
    simpa using h
  · intro l1 l2 hperm Htie
    apply eq_of_sorted_perm_tie
    · exact (List.perm_insertionSort _ _).trans
        ((memberTotals_perm hperm).trans (List.perm_insertionSort _ _).symm)
    · exact sorted_perMemberTotals l1
    · exact sorted_perMemberTotals l2
    · exact nodup_map_fst_perMemberTotals l1
    · intro a b htie ha hb hsub
      have ha' : a ∈ memberTotals l1 := (List.perm_insertionSort _ _).subset ha
      have hb' : b ∈ memberTotals l1 := (List.perm_insertionSort _ _).subset hb
      by_cases hab : a = b
      · subst hab
        exact absurd hsub (not_pair_self_sublist (nodup_perMemberTotals l1) a)
      · obtain ⟨ha1, ha2⟩ := mem_memberTotals.mp ha'
        obtain ⟨hb1, hb2⟩ := mem_memberTotals.mp hb'
        have hfs1 : List.Sublist [a.1, b.1] (fsNames l1) :=
          fs_order_of_output_order ha' hb' hab htie hsub
        have hsums : sumName l1 a.1 = sumName l1 b.1 := by
          rw [← ha2, ← hb2]; exact htie
        have hfs2 : List.Sublist [a.1, b.1] (fsNames l2) :=
          (Htie a.1 ha1 b.1 hb1 hsums).mp hfs1
        have hmap := pair_mem_totals_sublist hfs2
        have haeq : (a.1, sumName l2 a.1) = a := by
          rw [← sumName_perm hperm, ← ha2]
        have hbeq : (b.1, sumName l2 b.1) = b := by
          rw [← sumName_perm hperm, ← hb2]
        rw [haeq, hbeq] at hmap
        show List.Sublist _ (List.insertionSort byAmt (memberTotals l2))
        refine List.pair_sublist_insertionSort ?_ hmap
        show b.2 ≤ a.2
        exact le_of_eq htie.symm

/-- Incoming Sadaka donation of 100 by Alice. -/
def recAlice100 : Record :=
  ⟨"p1", "2024-01-01", 2024, 1, "Incoming", "Sister", "Alice", "", "", "", "Sadaka", "", "", some 100⟩

/-- Incoming Sadaka donation of 100 by Bob — tied with Alice. -/
def recBob100 : Record :=
  ⟨"p2", "2024-02-01", 2024, 2, "Incoming", "Brother", "Bob", "", "", "", "Sadaka", "", "", some 100⟩

/-- Incoming Sadaka donation of 50 by Carl. -/
def recCarl50 : Record :=
  ⟨"p3", "2024-03-01", 2024, 3, "Incoming", "Brother", "Carl", "", "", "", "Sadaka", "", "", some 50⟩

/-- Witness for `perMemberTotals_stable`: Alice and Bob both sum to 100
and keep their first-seen order in the output, which is unchanged when
Carl's record is moved to the front. -/
theorem perMemberTotals_stable_witness :
    List.Sublist ["Alice", "Bob"]
      ((perMemberTotals [recAlice100, recBob100, recCarl50]).map Prod.fst) ∧
    perMemberTotals [recAlice100, recBob100, recCarl50] =
      perMemberTotals [recCarl50, recAlice100, recBob100] := by
  have hA : sumName [recAlice100, recBob100, recCarl50] "Alice" = 100 := by
    simp [sumName, recAlice100, recBob100, recCarl50, amt]
  have hB : sumName [recAlice100, recBob100, recCarl50] "Bob" = 100 := by
    simp [sumName, recAlice100, recBob100, recCarl50, amt]
  have hC : sumName [recAlice100, recBob100, recCarl50] "Carl" = 50 := by
    simp [sumName, recAlice100, recBob100, recCarl50, amt]
  constructor
  · exact perMemberTotals_stable.2.1 [recAlice100, recBob100, recCarl50]
      "Alice" "Bob" (by decide) (by rw [hA, hB]) (by decide)
  · refine perMemberTotals_stable.2.2 [recAlice100, recBob100, recCarl50]
      [recCarl50, recAlice100, recBob100] (by decide) ?_
    intro a ha b hb hsum
    have hfs1 : fsNames [recAlice100, recBob100, recCarl50] =
        ["Alice", "Bob", "Carl"] := rfl
    have hfs2 : fsNames [recCarl50, recAlice100, recBob100] =
        ["Carl", "Alice", "Bob"] := rfl
    rw [hfs1] at ha hb
    rw [hfs1, hfs2]
    simp only [List.mem_cons, List.not_mem_nil, or_false] at ha hb
    rcases ha with rfl | rfl | rfl <;> rcases hb with rfl | rfl | rfl <;>
      first
        | decide
        | (exfalso
           rw [hA, hC] at hsum
           norm_num at hsum)
        | (exfalso
           rw [hB, hC] at hsum
           norm_num at hsum)

end Charity
